import Mathlib

/-
Verification of the feediverse feed-to-Mastodon pipeline (src/feediverse.py).

The program is embedded shallowly:
  * Python strings are lists of characters (`Str`).
  * Timestamps (timezone-aware datetimes) are instants measured in
    microseconds (`Nat`); aware datetimes compare and take `max` by instant,
    which is exactly this order.  feedparser's `updated_parsed` field is the
    same instant truncated to whole seconds (a `time.struct_time` has second
    granularity), modelled by `updatedParsedKey`.
  * The feed-parsing library and the Mastodon client are external
    collaborators: a feed is modelled by the list of raw entries it yields,
    and the remote `status_post` call by an oracle list of Booleans giving
    the outcome of each successive post for that feed.
  * Exceptions are modelled with `Except`; an uncaught exception terminates
    the interpreter with exit status 1.
-/

namespace Feediverse

/-- Python strings are modelled as lists of characters. -/
abbrev Str := List Char

/-! ## cleanup (src/feediverse.py lines 128-135)

`BeautifulSoup(text).get_text()` is an external collaborator; the model takes
its text output as input.  The four `re.sub` calls and the final `strip` are
modelled exactly. -/

/-- Collapse every maximal run of the character `ch` into the single character
`rep`.  `collapseRuns '\xa0' ' '` is `re.sub('\xa0+', ' ', ·)` and
`collapseRuns ' ' ' '` agrees with `re.sub('  +', ' ', ·)` (a lone space is
replaced by itself). -/
def collapseRuns (ch rep : Char) : Str → Str
  | [] => []
  | c :: rest =>
    if c = ch then
      match rest with
      | d :: _ => if d = ch then collapseRuns ch rep rest else rep :: collapseRuns ch rep rest
      | [] => [rep]
    else c :: collapseRuns ch rep rest

/-- Worker for `re.sub(' +\n', '\n', ·)`: `pending` counts spaces read but not
yet emitted; they are dropped when a newline follows. -/
def dropSpacesBeforeNlGo (pending : Nat) : Str → Str
  | [] => List.replicate pending ' '
  | c :: rest =>
    if c = ' ' then dropSpacesBeforeNlGo (pending + 1) rest
    else if c = '\n' then '\n' :: dropSpacesBeforeNlGo 0 rest
    else List.replicate pending ' ' ++ c :: dropSpacesBeforeNlGo 0 rest

/-- Worker for `re.sub('\n\n\n+', '\n\n', ·)`: every maximal run of `n`
newlines is emitted as `min n 2` newlines; `seen` counts the newlines already
emitted for the current run. -/
def capNewlinesGo (seen : Nat) : Str → Str
  | [] => []
  | c :: rest =>
    if c = '\n' then
      if seen < 2 then '\n' :: capNewlinesGo (seen + 1) rest else capNewlinesGo seen rest
    else c :: capNewlinesGo 0 rest

/-- Characters stripped by Python's `str.strip()` (the ones that can occur in
this development; `'\xa0'.isspace()` is `True` in Python). -/
def pyWhitespace (c : Char) : Bool :=
  c = ' ' || c = '\t' || c = '\n' || c = '\r' || c = '\x0b' || c = '\x0c' || c = '\xa0'

/-- Python's `str.strip()`. -/
def pyStrip (s : Str) : Str :=
  ((s.dropWhile pyWhitespace).reverse.dropWhile pyWhitespace).reverse

/-- `cleanup` (lines 128-135): the four regex substitutions in source order,
then `strip`. -/
def cleanup (text : Str) : Str :=
  pyStrip (capNewlinesGo 0 (dropSpacesBeforeNlGo 0
    (collapseRuns ' ' ' ' (collapseRuns '\xa0' ' ' text))))

/-! ## Raw feed entries and get_entry (lines 107-125) -/

/-- A raw entry as returned by the external feed parser.  `title` and the
other text fields hold the text that `BeautifulSoup.get_text` extracts.
`updated` is `dateutil.parser.parse(entry['updated'])` as an instant in
microseconds; `content` is the list of the `value` texts of the content
blocks; `tags` the `term` labels of the categories. -/
structure RawEntry where
  id : Option Str
  link : Str
  title : Str
  summary : Option Str
  content : List Str
  tags : List Str
  updated : Nat
deriving DecidableEq, Repr

/-- The normalized entry record built by `get_entry`. -/
structure Entry where
  url : Str
  link : Str
  title : Str
  summary : Str
  content : Str
  hashtags : Str
  updated : Nat
deriving DecidableEq, Repr

/-- One hashtag token: `'#' + term.replace(' ', '_').replace('.', '').replace('-', '')`. -/
def mkHashtag (term : Str) : Str :=
  '#' :: (term.map (fun c => if c = ' ' then '_' else c)).filter (fun c => !(c = '.' || c = '-'))

/-- `get_entry` (lines 107-125). -/
def get_entry (e : RawEntry) : Entry where
  url := e.id.getD e.link
  link := e.link
  title := cleanup e.title
  summary := cleanup (e.summary.getD [])
  content :=
    match e.content with
    | [] => []
    | v :: _ => cleanup v
  hashtags := List.intercalate [' '] (e.tags.map mkHashtag)
  updated := e.updated

/-! ## get_feed (lines 95-104) -/

/-- The sort key used on line 102: `e.updated_parsed`, feedparser's parse of
the same update string at second granularity (a `time.struct_time`), i.e. the
instant truncated to whole seconds. -/
def updatedParsedKey (e : RawEntry) : Nat := e.updated / 1000000

/-- The corresponding key on normalized entries. -/
def entryKey (e : Entry) : Nat := e.updated / 1000000

/-- The comparison `list.sort(key=lambda e: e.updated_parsed)` sorts by. -/
def keyLe (a b : RawEntry) : Prop := updatedParsedKey a ≤ updatedParsedKey b

instance : DecidableRel keyLe := fun _ _ => Nat.decLe _ _

instance : IsTotal RawEntry keyLe := ⟨fun a b => Nat.le_total (updatedParsedKey a) (updatedParsedKey b)⟩

instance : IsTrans RawEntry keyLe := ⟨fun _ _ _ => Nat.le_trans⟩

/-- `get_feed` (lines 95-104).  `feedparser.parse(feed_url).entries` is the
`entries` argument.  A `datetime` is always truthy and `None` falsy, so the
`if last_update:` test is the `Option` match.  Python's `list.sort` is stable;
`List.insertionSort` is stable for the same key order, and any two stable
sorts agree, so the model sorts identically.  The generator yields
`get_entry` of each surviving entry in sorted order. -/
def get_feed (entries : List RawEntry) (last_update : Option Nat) : List Entry :=
  let selected : List RawEntry :=
    match last_update with
    | some w => entries.filter (fun e => decide (w < e.updated))
    | none => entries
  (selected.insertionSort keyLe).map get_entry

/-! ## str.format (line 72)

`feed['template'].format(**entry)` over the entry dict.  The model covers
literal text, `{{` and `}}` escapes and plain `{name}` replacement fields,
which is the fragment the program's templates use; format specifications
(`{name:spec}`), conversions (`{name!c}`) and positional auto-numbering are
outside the modelled fragment (a `:`, `!` or digit sequence is taken as part
of the verbatim field name). -/

/-- Failure modes of `str.format`.  `unknownField` is `KeyError` (the spec's
`TemplateError`); the other two are `ValueError`s raised by the brace
scanner. -/
inductive FormatError where
  | unknownField (name : Str)
  | singleBrace
  | unterminatedField
deriving DecidableEq, Repr

/-- Scanner state for `str.format`: in literal text, after a lone closing
brace, or inside a replacement field with the (reversed) name read so far. -/
inductive FmtState where
  | lit
  | closing
  | field (acc : Str)
deriving DecidableEq, Repr

/-- One-pass model of CPython's `str.format` markup scanner. -/
def pyFormatGo (lookup : Str → Option Str) : FmtState → Str → Except FormatError Str
  | .lit, [] => .ok []
  | .lit, c :: rest =>
    if c = '\x7b' then pyFormatGo lookup (.field []) rest
    else if c = '\x7d' then pyFormatGo lookup .closing rest
    else (pyFormatGo lookup .lit rest).map (c :: ·)
  | .closing, [] => .error .singleBrace
  | .closing, c :: rest =>
    if c = '\x7d' then (pyFormatGo lookup .lit rest).map ('\x7d' :: ·)
    else .error .singleBrace
  | .field _, [] => .error .unterminatedField
  | .field acc, c :: rest =>
    if acc = [] ∧ c = '\x7b' then (pyFormatGo lookup .lit rest).map ('\x7b' :: ·)
    else if c = '\x7d' then
      match lookup acc.reverse with
      | none => .error (.unknownField acc.reverse)
      | some v => (pyFormatGo lookup .lit rest).map (v ++ ·)
    else if c = '\x7b' then .error .unterminatedField
    else pyFormatGo lookup (.field (c :: acc)) rest

/-- `template.format(**entry)`. -/
def pyFormat (lookup : Str → Option Str) (template : Str) : Except FormatError Str :=
  pyFormatGo lookup .lit template

/-- The same scanner, returning the referenced field names of a template when
its brace syntax is well formed, and `none` otherwise. -/
def templateFieldsGo : FmtState → Str → Option (List Str)
  | .lit, [] => some []
  | .lit, c :: rest =>
    if c = '\x7b' then templateFieldsGo (.field []) rest
    else if c = '\x7d' then templateFieldsGo .closing rest
    else templateFieldsGo .lit rest
  | .closing, [] => none
  | .closing, c :: rest =>
    if c = '\x7d' then templateFieldsGo .lit rest else none
  | .field _, [] => none
  | .field acc, c :: rest =>
    if acc = [] ∧ c = '\x7b' then templateFieldsGo .lit rest
    else if c = '\x7d' then (templateFieldsGo .lit rest).map (acc.reverse :: ·)
    else if c = '\x7b' then none
    else templateFieldsGo (.field (c :: acc)) rest

/-- Referenced field names of a well-formed template. -/
def templateFields (template : Str) : Option (List Str) :=
  templateFieldsGo .lit template

/-- The keys of the dict built by `get_entry` (lines 117-125). -/
def knownFieldNames : List Str :=
  ["url".toList, "link".toList, "title".toList, "summary".toList,
   "content".toList, "hashtags".toList, "updated".toList]

/-- `str(datetime)` as interpolated by `format`; the exact text never matters
downstream, so the instant is rendered as its decimal digits. -/
def updatedText (t : Nat) : Str := Nat.toDigits 10 t

/-- Field lookup in the entry dict passed as `**entry`. -/
def entryLookup (e : Entry) (name : Str) : Option Str :=
  if name = "url".toList then some e.url
  else if name = "link".toList then some e.link
  else if name = "title".toList then some e.title
  else if name = "summary".toList then some e.summary
  else if name = "content".toList then some e.content
  else if name = "hashtags".toList then some e.hashtags
  else if name = "updated".toList then some (updatedText e.updated)
  else none

/-! ## The main pipeline (lines 62-92) -/

/-- The status dict built on lines 71-74: the formatted template truncated to
`config.get('max_chars', 500)` characters, plus `config.get('visibility')`. -/
structure Status where
  text : Str
  visibility : Option Str
deriving DecidableEq, Repr

/-- One configured feed together with its external collaborators: the raw
entries `feedparser.parse(feed['url'])` yields, and the outcome oracle of the
successive `masto.status_post` calls made for this feed (`true` = success,
`false` = `MastodonError`; exhausted oracle defaults to success). -/
structure FeedCfg where
  template : Str
  entries : List RawEntry
  pubOk : List Bool
deriving DecidableEq, Repr

/-- The configuration fields `main` reads: `config['updated']` (after
`read_config`, always a datetime — `MINYEAR` on first run), the optional
`max_chars` and `visibility` keys, and the feed list. -/
structure Config where
  updated : Nat
  maxChars : Option Nat
  visibility : Option Str
  feeds : List FeedCfg
deriving DecidableEq, Repr

/-- Observable trace of one feed's inner loop: the final `newest_post`, the
`updated` instants of the entries the loop examined (in order), the statuses
composed for them, the outcomes of the publish attempts made, and whether the
loop ended in the `except MastodonError` break. -/
structure FeedOut where
  newest : Nat
  seen : List Nat
  composed : List Status
  pubResults : List Bool
  failed : Bool
deriving DecidableEq, Repr

/-- The inner `for entry in get_feed(...)` loop (lines 67-86) over the already
fetched entry list.  `newest` is the running `newest_post`; `pub` the
remaining publish oracle.  Per entry: advance `newest_post` (line 69), format
the template — an exception here propagates —, truncate, then either print
(dry run, `continue`) or post, setting `has_error`/`failed` and breaking on a
`MastodonError`. -/
def processEntries (dryRun : Bool) (tmpl : Str) (maxChars : Nat) (vis : Option Str) :
    List Entry → List Bool → Nat → Except FormatError FeedOut
  | [], _, newest => .ok ⟨newest, [], [], [], false⟩
  | e :: rest, pub, newest =>
    let n2 := Nat.max newest e.updated
    match pyFormat (entryLookup e) tmpl with
    | .error err => .error err
    | .ok txt =>
      let st : Status := ⟨txt.take maxChars, vis⟩
      if dryRun then
        match processEntries dryRun tmpl maxChars vis rest pub n2 with
        | .error err => .error err
        | .ok out => .ok ⟨out.newest, e.updated :: out.seen, st :: out.composed, out.pubResults, out.failed⟩
      else if pub.headD true then
        match processEntries dryRun tmpl maxChars vis rest pub.tail n2 with
        | .error err => .error err
        | .ok out => .ok ⟨out.newest, e.updated :: out.seen, st :: out.composed, true :: out.pubResults, out.failed⟩
      else
        .ok ⟨n2, [e.updated], [st], [false], true⟩

/-- The outer `for feed in config['feeds']` loop (lines 64-86).  Every feed is
fetched with the watermark the run started with (`config['updated']`, line
67), while `newest_post` threads through.  Returns the final `newest_post`,
the per-feed traces, and `has_error`. -/
def runFeeds (dryRun : Bool) (maxChars : Nat) (vis : Option Str) (startW : Nat) :
    List FeedCfg → Nat → Except FormatError (Nat × List FeedOut × Bool)
  | [], newest => .ok (newest, [], false)
  | f :: fs, newest =>
    match processEntries dryRun f.template maxChars vis (get_feed f.entries (some startW)) f.pubOk newest with
    | .error err => .error err
    | .ok out =>
      match runFeeds dryRun maxChars vis startW fs out.newest with
      | .error err => .error err
      | .ok (n, outs, he) => .ok (n, out :: outs, out.failed || he)

/-- Result of a completed run: the watermark written back by `save_config`
(`none` in dry-run mode, where the config file is untouched), the
`sys.exit` code, and the per-feed traces. -/
structure RunResult where
  saved : Option Nat
  exitCode : Nat
  feedOuts : List FeedOut
deriving DecidableEq, Repr

/-- `main` (lines 62-92), from `has_error = False` on.  A `FormatError`
escaping the loops aborts the whole process before anything is persisted. -/
def main (dryRun : Bool) (cfg : Config) : Except FormatError RunResult :=
  match runFeeds dryRun (cfg.maxChars.getD 500) cfg.visibility cfg.updated cfg.feeds cfg.updated with
  | .error err => .error err
  | .ok (newest, outs, hasErr) =>
    .ok ⟨if dryRun then none else some newest, if hasErr then 1 else 0, outs⟩

/-- The watermark the run persists (`none` when nothing is written: dry run or
crash). -/
def savedWatermark : Except FormatError RunResult → Option Nat
  | .error _ => none
  | .ok r => r.saved

/-- The exit status of the process: `sys.exit(1 if has_error else 0)` on a
completed run; CPython exits with status 1 on an uncaught exception. -/
def processExitCode : Except FormatError RunResult → Nat
  | .error _ => 1
  | .ok r => r.exitCode

/-- All `updated` instants examined during a run, across feeds, in order. -/
def allSeen (r : RunResult) : List Nat :=
  (r.feedOuts.map FeedOut.seen).flatten

/-! ## Watermark serialization (lines 88-90, 143-158)

`save_config` writes `newest_post.isoformat()` into the YAML config and
`read_config` recovers it with `dateutil.parser.parse`.  YAML round-trips the
string unchanged (external library), so the round trip to verify is
`isoformat` followed by parsing.  Here the watermark is kept as the aware
datetime it is in the program: a component record `DT`. -/

/-- A timezone-aware `datetime`: calendar/clock components plus the UTC
offset in minutes. -/
structure DT where
  year : Nat
  month : Nat
  day : Nat
  hour : Nat
  minute : Nat
  second : Nat
  micro : Nat
  offMin : Int
deriving DecidableEq, Repr

/-- Component ranges of a real `datetime` (Python enforces `MINYEAR = 1`,
`MAXYEAR = 9999`; day-of-month validity beyond `≤ 31` is not needed for the
round trip). -/
def isValidDT (d : DT) : Prop :=
  1 ≤ d.year ∧ d.year ≤ 9999 ∧ 1 ≤ d.month ∧ d.month ≤ 12 ∧ 1 ≤ d.day ∧ d.day ≤ 31 ∧
    d.hour ≤ 23 ∧ d.minute ≤ 59 ∧ d.second ≤ 59 ∧ d.micro ≤ 999999 ∧ d.offMin.natAbs ≤ 1439

instance (d : DT) : Decidable (isValidDT d) := by
  unfold isValidDT; infer_instance

/-- Two zero-padded decimal digits. -/
def pad2 (n : Nat) : Str := [Nat.digitChar (n / 10), Nat.digitChar (n % 10)]

/-- Four zero-padded decimal digits. -/
def pad4 (n : Nat) : Str :=
  [Nat.digitChar (n / 1000), Nat.digitChar (n / 100 % 10), Nat.digitChar (n / 10 % 10),
   Nat.digitChar (n % 10)]

/-- Six zero-padded decimal digits. -/
def pad6 (n : Nat) : Str :=
  [Nat.digitChar (n / 100000), Nat.digitChar (n / 10000 % 10), Nat.digitChar (n / 1000 % 10),
   Nat.digitChar (n / 100 % 10), Nat.digitChar (n / 10 % 10), Nat.digitChar (n % 10)]

/-- `datetime.isoformat()` of an aware datetime:
`YYYY-MM-DDTHH:MM:SS[.ffffff]±HH:MM`, the fraction omitted when the
microsecond field is zero. -/
def isoformat (d : DT) : Str :=
  pad4 d.year ++ '-' :: (pad2 d.month ++ '-' :: (pad2 d.day ++ 'T' ::
    (pad2 d.hour ++ ':' :: (pad2 d.minute ++ ':' :: (pad2 d.second ++
      ((if d.micro = 0 then [] else '.' :: pad6 d.micro) ++
        ((if d.offMin < 0 then '-' else '+') ::
          (pad2 (d.offMin.natAbs / 60) ++ ':' :: pad2 (d.offMin.natAbs % 60)))))))))

/-- Value of a decimal digit character. -/
def digVal (c : Char) : Option Nat :=
  if '0' ≤ c ∧ c ≤ '9' then some (c.toNat - '0'.toNat) else none

/-- Read exactly two decimal digits. -/
def read2 : Str → Option (Nat × Str)
  | a :: b :: rest =>
    match digVal a, digVal b with
    | some x, some y => some (x * 10 + y, rest)
    | _, _ => none
  | _ => none

/-- Read exactly four decimal digits. -/
def read4 : Str → Option (Nat × Str)
  | a :: b :: c :: d :: rest =>
    match digVal a, digVal b, digVal c, digVal d with
    | some x, some y, some z, some w => some (((x * 10 + y) * 10 + z) * 10 + w, rest)
    | _, _, _, _ => none
  | _ => none

/-- Read exactly six decimal digits. -/
def read6 (s : Str) : Option (Nat × Str) :=
  match read4 s with
  | none => none
  | some (hi, s1) =>
    match read2 s1 with
    | none => none
    | some (lo, s2) => some (hi * 100 + lo, s2)

/-- Expect one specific character. -/
def expectChar (c : Char) : Str → Option Str
  | a :: rest => if a = c then some rest else none
  | [] => none

/-- Read `DD-DD` (two two-digit groups separated by `sep`). -/
def readPair (sep : Char) (s : Str) : Option (Nat × Nat × Str) :=
  match read2 s with
  | none => none
  | some (a, s1) =>
    match expectChar sep s1 with
    | none => none
    | some s2 =>
      match read2 s2 with
      | none => none
      | some (b, s3) => some (a, b, s3)

/-- Read the date part `YYYY-MM-DD`. -/
def readDate (s : Str) : Option (Nat × Nat × Nat × Str) :=
  match read4 s with
  | none => none
  | some (y, s1) =>
    match expectChar '-' s1 with
    | none => none
    | some s2 =>
      match readPair '-' s2 with
      | none => none
      | some (mo, dy, s3) => some (y, mo, dy, s3)

/-- Read the time part `HH:MM:SS`. -/
def readTime (s : Str) : Option (Nat × Nat × Nat × Str) :=
  match readPair ':' s with
  | none => none
  | some (h, mi, s1) =>
    match expectChar ':' s1 with
    | none => none
    | some s2 =>
      match read2 s2 with
      | none => none
      | some (sec, s3) => some (h, mi, sec, s3)

/-- Read the optional fraction `.ffffff` (microseconds). -/
def readFrac : Str → Option (Nat × Str)
  | '.' :: rest => read6 rest
  | s => some (0, s)

/-- Read the offset `±HH:MM`, requiring the end of the string after it. -/
def readOffset : Str → Option Int
  | '+' :: rest =>
    match readPair ':' rest with
    | some (oh, om, []) => if oh ≤ 23 ∧ om ≤ 59 then some (oh * 60 + om : Nat) else none
    | _ => none
  | '-' :: rest =>
    match readPair ':' rest with
    | some (oh, om, []) => if oh ≤ 23 ∧ om ≤ 59 then some (-((oh * 60 + om : Nat) : Int)) else none
    | _ => none
  | _ => none

/-- `dateutil.parser.parse` restricted to the grammar `datetime.isoformat()`
emits (dateutil accepts far more shapes; only these can come back out of
`save_config`).  Out-of-range components are rejected as dateutil rejects
them; day-of-month validity against the month is not re-checked. -/
def dateutil_parse (s : Str) : Option DT :=
  match readDate s with
  | none => none
  | some (y, mo, dy, s1) =>
    match expectChar 'T' s1 with
    | none => none
    | some s2 =>
      match readTime s2 with
      | none => none
      | some (h, mi, sec, s3) =>
        match readFrac s3 with
        | none => none
        | some (micro, s4) =>
          match readOffset s4 with
          | none => none
          | some off =>
            if 1 ≤ y ∧ 1 ≤ mo ∧ mo ≤ 12 ∧ 1 ≤ dy ∧ dy ≤ 31 ∧ h ≤ 23 ∧ mi ≤ 59 ∧ sec ≤ 59 then
              some ⟨y, mo, dy, h, mi, sec, micro, off⟩
            else none

/-! ## Helper lemmas: running maximum -/

theorem le_foldl_max (n : Nat) (l : List Nat) : n ≤ List.foldl Nat.max n l := by
  induction l generalizing n with
  | nil => exact Nat.le_refl n
  | cons u t ih => exact Nat.le_trans (Nat.le_max_left n u) (ih (Nat.max n u))

theorem mem_le_foldl_max {u : Nat} : ∀ (l : List Nat) (n : Nat), u ∈ l →
    u ≤ List.foldl Nat.max n l := by
  intro l
  induction l with
  | nil => intro n h; cases h
  | cons v t ih =>
    intro n h
    rcases List.mem_cons.mp h with rfl | h2
    · exact Nat.le_trans (Nat.le_max_right n u) (le_foldl_max (Nat.max n u) t)
    · exact ih (Nat.max n v) h2

theorem natMaxCases (a b : Nat) : Nat.max a b = a ∨ Nat.max a b = b := by
  by_cases h : a ≤ b
  · exact Or.inr (Nat.max_eq_right h)
  · exact Or.inl (Nat.max_eq_left (Nat.le_of_not_le h))

theorem foldl_max_eq_or_mem (n : Nat) (l : List Nat) :
    List.foldl Nat.max n l = n ∨ List.foldl Nat.max n l ∈ l := by
  induction l generalizing n with
  | nil => exact Or.inl rfl
  | cons v t ih =>
    rw [List.foldl_cons]
    rcases ih (Nat.max n v) with h | h
    · rcases natMaxCases n v with h2 | h2
      · left
        rw [h, h2]
      · right
        rw [h, h2]
        exact List.mem_cons_self v t
    · exact Or.inr (List.mem_cons_of_mem v h)

theorem foldl_max_mem_of_gt {n : Nat} {l : List Nat} (hne : l ≠ [])
    (hgt : ∀ u ∈ l, n < u) : List.foldl Nat.max n l ∈ l := by
  rcases foldl_max_eq_or_mem n l with h | h
  · cases l with
    | nil => exact absurd rfl hne
    | cons v t =>
      have hv : v ≤ List.foldl Nat.max n (v :: t) :=
        mem_le_foldl_max (v :: t) n (List.mem_cons_self v t)
      rw [h] at hv
      exact absurd hv (Nat.not_le.mpr (hgt v (List.mem_cons_self v t)))
  · exact h

/-! ## Helper lemmas: get_feed -/

@[simp] theorem get_entry_updated (e : RawEntry) : (get_entry e).updated = e.updated := rfl

theorem mem_get_feed_some {a : Entry} {entries : List RawEntry} {w : Nat} :
    a ∈ get_feed entries (some w) ↔ ∃ e, e ∈ entries ∧ w < e.updated ∧ a = get_entry e := by
  unfold get_feed
  simp only [List.mem_map, List.mem_insertionSort, List.mem_filter, decide_eq_true_eq]
  constructor
  · rintro ⟨e, ⟨he, hw⟩, rfl⟩
    exact ⟨e, he, hw, rfl⟩
  · rintro ⟨e, he, hw, rfl⟩
    exact ⟨e, ⟨he, hw⟩, rfl⟩

theorem mem_get_feed_none {a : Entry} {entries : List RawEntry} :
    a ∈ get_feed entries none ↔ ∃ e, e ∈ entries ∧ a = get_entry e := by
  unfold get_feed
  simp only [List.mem_map, List.mem_insertionSort]
  constructor
  · rintro ⟨e, he, rfl⟩
    exact ⟨e, he, rfl⟩
  · rintro ⟨e, he, rfl⟩
    exact ⟨e, he, rfl⟩

theorem get_feed_updated_gt {a : Entry} {entries : List RawEntry} {w : Nat}
    (h : a ∈ get_feed entries (some w)) : w < a.updated := by
  rcases mem_get_feed_some.mp h with ⟨e, _, hw, rfl⟩
  simpa using hw

theorem get_feed_none_perm (entries : List RawEntry) :
    (get_feed entries none).Perm (entries.map get_entry) :=
  (List.perm_insertionSort keyLe entries).map get_entry

theorem get_feed_some_perm (entries : List RawEntry) (w : Nat) :
    (get_feed entries (some w)).Perm
      ((entries.filter (fun e => decide (w < e.updated))).map get_entry) :=
  (List.perm_insertionSort keyLe _).map get_entry

theorem get_feed_sorted_key (entries : List RawEntry) (lu : Option Nat) :
    (get_feed entries lu).Pairwise (fun a b => entryKey a ≤ entryKey b) := by
  unfold get_feed
  exact List.Pairwise.map get_entry (fun _ _ h => h) (List.sorted_insertionSort keyLe _)

/-! ## Helper lemmas: the per-feed loop -/

theorem processEntries_ok (d : Bool) (t : Str) (mc : Nat) (vis : Option Str) :
    ∀ (es : List Entry) (pub : List Bool) (n : Nat) (out : FeedOut),
      processEntries d t mc vis es pub n = .ok out →
      out.seen = (es.map Entry.updated).take out.seen.length ∧
      out.seen.length ≤ es.length ∧
      out.newest = List.foldl Nat.max n out.seen ∧
      out.composed.length = out.seen.length ∧
      (∀ st ∈ out.composed, st.text.length ≤ mc) ∧
      (d = true → out.pubResults = [] ∧ out.failed = false ∧ out.seen.length = es.length) ∧
      (d = false → out.pubResults.length = out.seen.length ∧
        (out.failed = false → out.seen.length = es.length ∧ false ∉ out.pubResults) ∧
        (out.failed = true → ∃ pre, out.pubResults = pre ++ [false] ∧ false ∉ pre)) := by
  intro es
  induction es with
  | nil =>
    intro pub n out h
    simp only [processEntries, Except.ok.injEq] at h
    subst h
    refine ⟨rfl, Nat.le_refl 0, rfl, rfl, ?_, ?_, ?_⟩
    · intro st hst
      cases hst
    · intro _
      exact ⟨rfl, rfl, rfl⟩
    · intro _
      refine ⟨rfl, fun _ => ⟨rfl, by simp⟩, ?_⟩
      intro hf
      exact Bool.noConfusion hf
  | cons e rest ih =>
    intro pub n out h
    simp only [processEntries] at h
    split at h
    · exact Except.noConfusion h
    · rename_i txt hpf
      split at h
      · -- dry-run branch
        rename_i hdry
        split at h
        · exact Except.noConfusion h
        · rename_i out' hrec
          simp only [Except.ok.injEq] at h
          subst h
          obtain ⟨hseen, hlen, hnewest, hcomp, hst, _, _⟩ :=
            ih pub (Nat.max n e.updated) out' hrec
          refine ⟨?_, ?_, ?_, ?_, ?_, ?_, ?_⟩
          · simpa using hseen
          · simpa using Nat.succ_le_succ hlen
          · simpa using hnewest
          · simpa using hcomp
          · intro st hmem
            rcases List.mem_cons.mp hmem with rfl | hmem2
            · exact List.length_take_le mc txt
            · exact hst st hmem2
          · intro _
            obtain ⟨hp, hf, hl⟩ := (ih pub (Nat.max n e.updated) out' hrec).2.2.2.2.2.1 hdry
            exact ⟨hp, hf, by simpa using hl⟩
          · intro hlive
            rw [hdry] at hlive
            exact Bool.noConfusion hlive
      · -- live mode
        rename_i hdry
        have hdry' : d = false := by
          cases d
          · rfl
          · exact absurd rfl hdry
        split at h
        · -- publish succeeded
          rename_i hpub
          split at h
          · exact Except.noConfusion h
          · rename_i out' hrec
            simp only [Except.ok.injEq] at h
            subst h
            obtain ⟨hseen, hlen, hnewest, hcomp, hst, _, hlivefacts⟩ :=
              ih pub.tail (Nat.max n e.updated) out' hrec
            obtain ⟨hplen, hok, hfail⟩ := hlivefacts hdry'
            refine ⟨?_, ?_, ?_, ?_, ?_, ?_, ?_⟩
            · simpa using hseen
            · simpa using Nat.succ_le_succ hlen
            · simpa using hnewest
            · simpa using hcomp
            · intro st hmem
              rcases List.mem_cons.mp hmem with rfl | hmem2
              · exact List.length_take_le mc txt
              · exact hst st hmem2
            · intro hd
              rw [hdry'] at hd
              exact Bool.noConfusion hd
            · intro _
              refine ⟨by simpa using hplen, ?_, ?_⟩
              · intro hnf
                obtain ⟨h1, h2⟩ := hok hnf
                exact ⟨by simpa using h1, by simpa using h2⟩
              · intro hf
                obtain ⟨pre, hpre, hnp⟩ := hfail hf
                exact ⟨true :: pre, by simp [hpre], by simpa using hnp⟩
        · -- publish failed: break
          simp only [Except.ok.injEq] at h
          subst h
          refine ⟨by simp, by simp, by simp, rfl, ?_, ?_, ?_⟩
          · intro st hmem
            rcases List.mem_cons.mp hmem with rfl | hmem2
            · exact List.length_take_le mc txt
            · cases hmem2
          · intro hd
            rw [hdry'] at hd
            exact Bool.noConfusion hd
          · intro _
            refine ⟨rfl, ?_, ?_⟩
            · intro hne
              exact Bool.noConfusion hne
            · intro _
              exact ⟨[], rfl, by simp⟩

theorem runFeeds_ok (d : Bool) (mc : Nat) (vis : Option Str) (sw : Nat) :
    ∀ (feeds : List FeedCfg) (n0 n : Nat) (outs : List FeedOut) (he : Bool),
      runFeeds d mc vis sw feeds n0 = .ok (n, outs, he) →
      List.Forall₂ (fun f out => ∃ m, processEntries d f.template mc vis
          (get_feed f.entries (some sw)) f.pubOk m = .ok out) feeds outs ∧
      n = List.foldl Nat.max n0 ((outs.map FeedOut.seen).flatten) ∧
      he = outs.any FeedOut.failed := by
  intro feeds
  induction feeds with
  | nil =>
    intro n0 n outs he h
    simp only [runFeeds, Except.ok.injEq, Prod.mk.injEq] at h
    obtain ⟨h1, h2, h3⟩ := h
    subst h1; subst h2; subst h3
    exact ⟨List.Forall₂.nil, rfl, rfl⟩
  | cons f fs ih =>
    intro n0 n outs he h
    simp only [runFeeds] at h
    split at h
    · exact Except.noConfusion h
    · rename_i out hproc
      split at h
      · exact Except.noConfusion h
      · rename_i res n' outs' he' hrec
        simp only [Except.ok.injEq, Prod.mk.injEq] at h
        obtain ⟨h1, h2, h3⟩ := h
        subst h1; subst h2; subst h3
        obtain ⟨hall, hn, hhe⟩ := ih out.newest n' outs' he' hrec
        have hnewest := (processEntries_ok d f.template mc vis _ f.pubOk n0 out hproc).2.2.1
        refine ⟨List.Forall₂.cons ⟨n0, hproc⟩ hall, ?_, ?_⟩
        · rw [hn, hnewest]
          simp [List.foldl_append]
        · simp [hhe]

/-! ## Helper lemmas: str.format versus templateFields -/

/-- Agreement between the scanner and its field-collecting shadow from a given
state: on well-formed remainders formatting succeeds exactly when every
collected field resolves, failures are `KeyError`s on collected fields, and on
malformed remainders formatting fails. -/
def FmtAgrees (lookup : Str → Option Str) (st : FmtState) (l : Str) : Prop :=
  (∀ fs, templateFieldsGo st l = some fs →
    ((∀ f ∈ fs, (lookup f).isSome) → ∃ s, pyFormatGo lookup st l = .ok s) ∧
    (∀ s, pyFormatGo lookup st l = .ok s → ∀ f ∈ fs, (lookup f).isSome) ∧
    (∀ e, pyFormatGo lookup st l = .error e →
      ∃ nm, e = .unknownField nm ∧ nm ∈ fs ∧ lookup nm = none)) ∧
  (templateFieldsGo st l = none → ∃ e, pyFormatGo lookup st l = .error e)

theorem fmtAgrees_nil (lookup : Str → Option Str) : ∀ st, FmtAgrees lookup st [] := by
  intro st
  cases st with
  | lit =>
    constructor
    · intro fs hfs
      simp only [templateFieldsGo, Option.some.injEq] at hfs
      subst hfs
      refine ⟨fun _ => ⟨[], rfl⟩, ?_, ?_⟩
      · intro s _ f hf
        cases hf
      · intro e he
        exact Except.noConfusion he
    · intro hnone
      simp [templateFieldsGo] at hnone
  | closing =>
    constructor
    · intro fs hfs
      simp [templateFieldsGo] at hfs
    · intro _
      exact ⟨.singleBrace, rfl⟩
  | field acc =>
    constructor
    · intro fs hfs
      simp [templateFieldsGo] at hfs
    · intro _
      exact ⟨.unterminatedField, rfl⟩

theorem fmtAgrees (lookup : Str → Option Str) :
    ∀ (N : Nat) (l : Str), l.length ≤ N → ∀ st, FmtAgrees lookup st l := by
  intro N
  induction N with
  | zero =>
    intro l hl st
    have hnil : l = [] := List.length_eq_zero.mp (Nat.le_zero.mp hl)
    subst hnil
    exact fmtAgrees_nil lookup st
  | succ N ih =>
    intro l hl st
    cases l with
    | nil => exact fmtAgrees_nil lookup st
    | cons c rest =>
      have hrest : rest.length ≤ N := Nat.le_of_succ_le_succ hl
      cases st with
      | lit =>
        by_cases hb : c = '\x7b'
        · subst hb
          have hTF : templateFieldsGo .lit ('\x7b' :: rest) = templateFieldsGo (.field []) rest := by
            simp [templateFieldsGo]
          have hPF : pyFormatGo lookup .lit ('\x7b' :: rest) = pyFormatGo lookup (.field []) rest := by
            simp [pyFormatGo]
          unfold FmtAgrees
          rw [hTF, hPF]
          exact ih rest hrest (.field [])
        · by_cases hc : c = '\x7d'
          · subst hc
            have hTF : templateFieldsGo .lit ('\x7d' :: rest) = templateFieldsGo .closing rest := by
              simp [templateFieldsGo]
            have hPF : pyFormatGo lookup .lit ('\x7d' :: rest) = pyFormatGo lookup .closing rest := by
              simp [pyFormatGo]
            unfold FmtAgrees
            rw [hTF, hPF]
            exact ih rest hrest .closing
          · have hTF : templateFieldsGo .lit (c :: rest) = templateFieldsGo .lit rest := by
              simp [templateFieldsGo, hb, hc]
            have hPF : pyFormatGo lookup .lit (c :: rest) =
                (pyFormatGo lookup .lit rest).map (c :: ·) := by
              simp [pyFormatGo, hb, hc]
            obtain ⟨ihsome, ihnone⟩ := ih rest hrest .lit
            constructor
            · intro fs hfs
              rw [hTF] at hfs
              obtain ⟨ha, hb2, hc2⟩ := ihsome fs hfs
              refine ⟨?_, ?_, ?_⟩
              · intro hknown
                obtain ⟨s, hs⟩ := ha hknown
                exact ⟨c :: s, by rw [hPF, hs]; rfl⟩
              · intro s hs
                rw [hPF] at hs
                cases hrec : pyFormatGo lookup .lit rest with
                | error e => rw [hrec] at hs; exact Except.noConfusion hs
                | ok s0 => exact hb2 s0 hrec
              · intro e he
                rw [hPF] at he
                cases hrec : pyFormatGo lookup .lit rest with
                | error e0 =>
                  rw [hrec] at he
                  simp only [Except.map, Except.error.injEq] at he
                  subst he
                  exact hc2 _ hrec
                | ok s0 => rw [hrec] at he; exact Except.noConfusion he
            · intro hfs
              rw [hTF] at hfs
              obtain ⟨e, he⟩ := ihnone hfs
              exact ⟨e, by rw [hPF, he]; rfl⟩
      | closing =>
        by_cases hc : c = '\x7d'
        · subst hc
          have hTF : templateFieldsGo .closing ('\x7d' :: rest) = templateFieldsGo .lit rest := by
            simp [templateFieldsGo]
          have hPF : pyFormatGo lookup .closing ('\x7d' :: rest) =
              (pyFormatGo lookup .lit rest).map ('\x7d' :: ·) := by
            simp [pyFormatGo]
          obtain ⟨ihsome, ihnone⟩ := ih rest hrest .lit
          constructor
          · intro fs hfs
            rw [hTF] at hfs
            obtain ⟨ha, hb2, hc2⟩ := ihsome fs hfs
            refine ⟨?_, ?_, ?_⟩
            · intro hknown
              obtain ⟨s, hs⟩ := ha hknown
              exact ⟨'\x7d' :: s, by rw [hPF, hs]; rfl⟩
            · intro s hs
              rw [hPF] at hs
              cases hrec : pyFormatGo lookup .lit rest with
              | error e => rw [hrec] at hs; exact Except.noConfusion hs
              | ok s0 => exact hb2 s0 hrec
            · intro e he
              rw [hPF] at he
              cases hrec : pyFormatGo lookup .lit rest with
              | error e0 =>
                rw [hrec] at he
                simp only [Except.map, Except.error.injEq] at he
                subst he
                exact hc2 _ hrec
              | ok s0 => rw [hrec] at he; exact Except.noConfusion he
          · intro hfs
            rw [hTF] at hfs
            obtain ⟨e, he⟩ := ihnone hfs
            exact ⟨e, by rw [hPF, he]; rfl⟩
        · have hTF : templateFieldsGo .closing (c :: rest) = none := by
            simp [templateFieldsGo, hc]
          have hPF : pyFormatGo lookup .closing (c :: rest) = .error .singleBrace := by
            simp [pyFormatGo, hc]
          constructor
          · intro fs hfs
            rw [hTF] at hfs
            exact Option.noConfusion hfs
          · intro _
            exact ⟨.singleBrace, hPF⟩
      | field acc =>
        by_cases h1 : acc = [] ∧ c = '\x7b'
        · obtain ⟨hacc, hcb⟩ := h1
          subst hacc
          subst hcb
          have hTF : templateFieldsGo (.field []) ('\x7b' :: rest) = templateFieldsGo .lit rest := by
            simp [templateFieldsGo]
          have hPF : pyFormatGo lookup (.field []) ('\x7b' :: rest) =
              (pyFormatGo lookup .lit rest).map ('\x7b' :: ·) := by
            simp [pyFormatGo]
          obtain ⟨ihsome, ihnone⟩ := ih rest hrest .lit
          constructor
          · intro fs hfs
            rw [hTF] at hfs
            obtain ⟨ha, hb2, hc2⟩ := ihsome fs hfs
            refine ⟨?_, ?_, ?_⟩
            · intro hknown
              obtain ⟨s, hs⟩ := ha hknown
              exact ⟨'\x7b' :: s, by rw [hPF, hs]; rfl⟩
            · intro s hs
              rw [hPF] at hs
              cases hrec : pyFormatGo lookup .lit rest with
              | error e => rw [hrec] at hs; exact Except.noConfusion hs
              | ok s0 => exact hb2 s0 hrec
            · intro e he
              rw [hPF] at he
              cases hrec : pyFormatGo lookup .lit rest with
              | error e0 =>
                rw [hrec] at he
                simp only [Except.map, Except.error.injEq] at he
                subst he
                exact hc2 _ hrec
              | ok s0 => rw [hrec] at he; exact Except.noConfusion he
          · intro hfs
            rw [hTF] at hfs
            obtain ⟨e, he⟩ := ihnone hfs
            exact ⟨e, by rw [hPF, he]; rfl⟩
        · by_cases hc : c = '\x7d'
          · subst hc
            have hTF : templateFieldsGo (.field acc) ('\x7d' :: rest) =
                (templateFieldsGo .lit rest).map (acc.reverse :: ·) := by
              simp [templateFieldsGo]
            have hPF : pyFormatGo lookup (.field acc) ('\x7d' :: rest) =
                match lookup acc.reverse with
                | none => .error (.unknownField acc.reverse)
                | some v => (pyFormatGo lookup .lit rest).map (v ++ ·) := by
              simp [pyFormatGo]
            obtain ⟨ihsome, ihnone⟩ := ih rest hrest .lit
            constructor
            · intro fs hfs
              rw [hTF] at hfs
              cases htf : templateFieldsGo .lit rest with
              | none => rw [htf] at hfs; exact Option.noConfusion hfs
              | some fs0 =>
                rw [htf] at hfs
                simp only [Option.map, Option.some.injEq] at hfs
                subst hfs
                obtain ⟨ha, hb2, hc2⟩ := ihsome fs0 htf
                refine ⟨?_, ?_, ?_⟩
                · intro hknown
                  have hhead : (lookup acc.reverse).isSome :=
                    hknown acc.reverse (List.mem_cons_self _ _)
                  obtain ⟨v, hv⟩ := Option.isSome_iff_exists.mp hhead
                  have htail : ∀ f ∈ fs0, (lookup f).isSome := fun f hf =>
                    hknown f (List.mem_cons_of_mem _ hf)
                  obtain ⟨s, hs⟩ := ha htail
                  refine ⟨v ++ s, ?_⟩
                  rw [hPF, hv, hs]
                  rfl
                · intro s hs f hf
                  rw [hPF] at hs
                  cases hv : lookup acc.reverse with
                  | none => rw [hv] at hs; exact Except.noConfusion hs
                  | some v =>
                    rw [hv] at hs
                    rcases List.mem_cons.mp hf with rfl | hf2
                    · rw [hv]; rfl
                    · cases hrec : pyFormatGo lookup .lit rest with
                      | error e => rw [hrec] at hs; exact Except.noConfusion hs
                      | ok s0 => exact hb2 s0 hrec f hf2
                · intro e he
                  rw [hPF] at he
                  cases hv : lookup acc.reverse with
                  | none =>
                    rw [hv] at he
                    cases he
                    exact ⟨acc.reverse, rfl, List.mem_cons_self _ _, hv⟩
                  | some v =>
                    rw [hv] at he
                    cases hrec : pyFormatGo lookup .lit rest with
                    | error e0 =>
                      rw [hrec] at he
                      simp only [Except.map, Except.error.injEq] at he
                      subst he
                      obtain ⟨nm, hnm, hmem, hnone⟩ := hc2 _ hrec
                      exact ⟨nm, hnm, List.mem_cons_of_mem _ hmem, hnone⟩
                    | ok s0 => rw [hrec] at he; exact Except.noConfusion he
            · intro hfs
              rw [hTF] at hfs
              cases htf : templateFieldsGo .lit rest with
              | some fs0 => rw [htf] at hfs; exact Option.noConfusion hfs
              | none =>
                obtain ⟨e, he⟩ := ihnone htf
                cases hv : lookup acc.reverse with
                | none => exact ⟨.unknownField acc.reverse, by rw [hPF, hv]⟩
                | some v => exact ⟨e, by rw [hPF, hv, he]; rfl⟩
          · by_cases hb : c = '\x7b'
            · subst hb
              have hacc : acc ≠ [] := fun h => h1 ⟨h, rfl⟩
              have hTF : templateFieldsGo (.field acc) ('\x7b' :: rest) = none := by
                simp [templateFieldsGo, hacc]
              have hPF : pyFormatGo lookup (.field acc) ('\x7b' :: rest) =
                  .error .unterminatedField := by
                simp [pyFormatGo, hacc]
              constructor
              · intro fs hfs
                rw [hTF] at hfs
                exact Option.noConfusion hfs
              · intro _
                exact ⟨.unterminatedField, hPF⟩
            · have hTF : templateFieldsGo (.field acc) (c :: rest) =
                  templateFieldsGo (.field (c :: acc)) rest := by
                simp [templateFieldsGo, hb, hc]
              have hPF : pyFormatGo lookup (.field acc) (c :: rest) =
                  pyFormatGo lookup (.field (c :: acc)) rest := by
                simp [pyFormatGo, hb, hc]
              unfold FmtAgrees
              rw [hTF, hPF]
              exact ih rest hrest (.field (c :: acc))

/-! ## Helper lemmas: watermark serialization round trip -/

theorem digVal_digitChar : ∀ k, k < 10 → digVal (Nat.digitChar k) = some k := by decide

theorem expectChar_self (c : Char) (rest : Str) : expectChar c (c :: rest) = some rest := by
  simp [expectChar]

theorem read2_pad2 (n : Nat) (h : n < 100) (rest : Str) :
    read2 (pad2 n ++ rest) = some (n, rest) := by
  have d1 : digVal (Nat.digitChar (n / 10)) = some (n / 10) := digVal_digitChar _ (by omega)
  have d0 : digVal (Nat.digitChar (n % 10)) = some (n % 10) := digVal_digitChar _ (by omega)
  simp only [pad2, List.cons_append, List.nil_append, read2, d1, d0]
  have hn : n / 10 * 10 + n % 10 = n := by omega
  rw [hn]

theorem read4_pad4 (n : Nat) (h : n < 10000) (rest : Str) :
    read4 (pad4 n ++ rest) = some (n, rest) := by
  have d3 : digVal (Nat.digitChar (n / 1000)) = some (n / 1000) := digVal_digitChar _ (by omega)
  have d2 : digVal (Nat.digitChar (n / 100 % 10)) = some (n / 100 % 10) :=
    digVal_digitChar _ (by omega)
  have d1 : digVal (Nat.digitChar (n / 10 % 10)) = some (n / 10 % 10) :=
    digVal_digitChar _ (by omega)
  have d0 : digVal (Nat.digitChar (n % 10)) = some (n % 10) := digVal_digitChar _ (by omega)
  simp only [pad4, List.cons_append, List.nil_append, read4, d3, d2, d1, d0]
  have hn : ((n / 1000 * 10 + n / 100 % 10) * 10 + n / 10 % 10) * 10 + n % 10 = n := by omega
  rw [hn]

theorem read6_pad6 (n : Nat) (h : n < 1000000) (rest : Str) :
    read6 (pad6 n ++ rest) = some (n, rest) := by
  have d5 : digVal (Nat.digitChar (n / 100000)) = some (n / 100000) :=
    digVal_digitChar _ (by omega)
  have d4 : digVal (Nat.digitChar (n / 10000 % 10)) = some (n / 10000 % 10) :=
    digVal_digitChar _ (by omega)
  have d3 : digVal (Nat.digitChar (n / 1000 % 10)) = some (n / 1000 % 10) :=
    digVal_digitChar _ (by omega)
  have d2 : digVal (Nat.digitChar (n / 100 % 10)) = some (n / 100 % 10) :=
    digVal_digitChar _ (by omega)
  have d1 : digVal (Nat.digitChar (n / 10 % 10)) = some (n / 10 % 10) :=
    digVal_digitChar _ (by omega)
  have d0 : digVal (Nat.digitChar (n % 10)) = some (n % 10) := digVal_digitChar _ (by omega)
  simp only [pad6, List.cons_append, List.nil_append, read6, read4, read2, d5, d4, d3, d2, d1, d0]
  have hn : (((n / 100000 * 10 + n / 10000 % 10) * 10 + n / 1000 % 10) * 10 + n / 100 % 10) * 100 +
      (n / 10 % 10 * 10 + n % 10) = n := by omega
  rw [hn]

theorem readPair_build (sep : Char) (a b : Nat) (ha : a < 100) (hb : b < 100) (rest : Str) :
    readPair sep (pad2 a ++ sep :: (pad2 b ++ rest)) = some (a, b, rest) := by
  simp only [readPair, read2_pad2 a ha, expectChar_self, read2_pad2 b hb]

theorem readDate_build (y mo dy : Nat) (hy : y < 10000) (hmo : mo < 100) (hdy : dy < 100)
    (rest : Str) :
    readDate (pad4 y ++ '-' :: (pad2 mo ++ '-' :: (pad2 dy ++ rest))) = some (y, mo, dy, rest) := by
  simp only [readDate, read4_pad4 y hy, expectChar_self, readPair_build '-' mo dy hmo hdy]

theorem readTime_build (h mi s : Nat) (hh : h < 100) (hmi : mi < 100) (hs : s < 100)
    (rest : Str) :
    readTime (pad2 h ++ ':' :: (pad2 mi ++ ':' :: (pad2 s ++ rest))) = some (h, mi, s, rest) := by
  simp only [readTime, readPair_build ':' h mi hh hmi, expectChar_self, read2_pad2 s hs]

theorem readOffset_build (off : Int) (hoff : off.natAbs ≤ 1439) :
    readOffset ((if off < 0 then '-' else '+') ::
      (pad2 (off.natAbs / 60) ++ ':' :: pad2 (off.natAbs % 60))) = some off := by
  have ha : off.natAbs / 60 < 100 := by omega
  have hb : off.natAbs % 60 < 100 := by omega
  have hcond : off.natAbs / 60 ≤ 23 ∧ off.natAbs % 60 ≤ 59 := by omega
  have hre : pad2 (off.natAbs % 60) = pad2 (off.natAbs % 60) ++ [] := (List.append_nil _).symm
  by_cases hneg : off < 0
  · rw [if_pos hneg, hre]
    simp only [readOffset, readPair_build ':' _ _ ha hb []]
    rw [if_pos hcond]
    have hv : -(((off.natAbs / 60 * 60 + off.natAbs % 60 : Nat) : Int)) = off := by omega
    rw [hv]
  · rw [if_neg hneg, hre]
    simp only [readOffset, readPair_build ':' _ _ ha hb []]
    rw [if_pos hcond]
    have hv : (((off.natAbs / 60 * 60 + off.natAbs % 60 : Nat) : Int)) = off := by omega
    rw [hv]

theorem readFrac_dot (rest : Str) : readFrac ('.' :: rest) = read6 rest := rfl

theorem readFrac_minus (rest : Str) : readFrac ('-' :: rest) = some (0, '-' :: rest) := rfl

theorem readFrac_plus (rest : Str) : readFrac ('+' :: rest) = some (0, '+' :: rest) := rfl

theorem dateutil_parse_isoformat (d : DT) (h : isValidDT d) :
    dateutil_parse (isoformat d) = some d := by
  obtain ⟨y, mo, dy, hr, mi, sec, mic, off⟩ := d
  obtain ⟨hy1, hy2, hm1, hm2, hd1, hd2, hh, hmi2, hs, hus, hoff⟩ := h
  dsimp only at hy1 hy2 hm1 hm2 hd1 hd2 hh hmi2 hs hus hoff
  have hdate := readDate_build y mo dy (by omega) (by omega) (by omega)
  have htime := readTime_build hr mi sec (by omega) (by omega) (by omega)
  have hoffb := readOffset_build off hoff
  have hcond : 1 ≤ y ∧ 1 ≤ mo ∧ mo ≤ 12 ∧ 1 ≤ dy ∧ dy ≤ 31 ∧
      hr ≤ 23 ∧ mi ≤ 59 ∧ sec ≤ 59 := ⟨hy1, hm1, hm2, hd1, hd2, hh, hmi2, hs⟩
  by_cases hmic : mic = 0
  · simp only [isoformat, hmic, if_pos, List.nil_append]
    simp only [dateutil_parse, hdate, expectChar_self, htime]
    by_cases hneg : off < 0
    · simp only [if_pos hneg] at hoffb ⊢
      simp only [readFrac_minus, hoffb, hcond, and_self, if_true, hmic]
    · simp only [if_neg hneg] at hoffb ⊢
      simp only [readFrac_plus, hoffb, hcond, and_self, if_true, hmic]
  · have hx : (if mic = 0 then ([] : Str) else '.' :: pad6 mic) = '.' :: pad6 mic := if_neg hmic
    simp only [isoformat, hx, List.cons_append]
    simp only [dateutil_parse, hdate, expectChar_self, htime, readFrac_dot,
      read6_pad6 mic (by omega), hoffb, hcond, and_self, if_true]

/-! ## Helper lemmas: whole runs -/

theorem forall₂_mem_right {α β : Type} {R : α → β → Prop} :
    ∀ {l1 : List α} {l2 : List β}, List.Forall₂ R l1 l2 → ∀ b ∈ l2, ∃ a ∈ l1, R a b := by
  intro l1 l2 h
  induction h with
  | nil =>
    intro b hb
    cases hb
  | cons hr _ ih =>
    intro b hb
    rcases List.mem_cons.mp hb with rfl | hb2
    · exact ⟨_, List.mem_cons_self _ _, hr⟩
    · obtain ⟨a, ha, hra⟩ := ih b hb2
      exact ⟨a, List.mem_cons_of_mem _ ha, hra⟩

theorem allSeen_mem {r : RunResult} {u : Nat} (h : u ∈ allSeen r) :
    ∃ out ∈ r.feedOuts, u ∈ out.seen := by
  unfold allSeen at h
  rcases List.mem_flatten.mp h with ⟨l, hl, hu⟩
  rcases List.mem_map.mp hl with ⟨out, hout, rfl⟩
  exact ⟨out, hout, hu⟩

/-- Shape of every successfully completed run: each configured feed yields a
trace produced by the entry loop on its fetched entries, the persisted
watermark is the running maximum over everything examined (live mode only),
and the exit code reflects `has_error`. -/
theorem main_ok_spec (dR : Bool) (cfg : Config) (r : RunResult) (h : main dR cfg = .ok r) :
    List.Forall₂ (fun f out => ∃ m, processEntries dR f.template (cfg.maxChars.getD 500)
        cfg.visibility (get_feed f.entries (some cfg.updated)) f.pubOk m = .ok out)
      cfg.feeds r.feedOuts ∧
    r.saved = (if dR then none else some (List.foldl Nat.max cfg.updated (allSeen r))) ∧
    r.exitCode = (if r.feedOuts.any FeedOut.failed then 1 else 0) := by
  unfold main at h
  split at h
  · exact Except.noConfusion h
  · rename_i newest outs hasErr hrf
    simp only [Except.ok.injEq] at h
    subst h
    obtain ⟨hall, hn, hh⟩ := runFeeds_ok dR (cfg.maxChars.getD 500) cfg.visibility cfg.updated
      cfg.feeds cfg.updated newest outs hasErr hrf
    refine ⟨hall, ?_, ?_⟩
    · cases dR <;> simp [allSeen, hn]
    · simp [hh]

/-- Every entry examined in a run was fetched, so its `updated` is strictly
above the watermark the run started with. -/
theorem main_ok_seen_gt (dR : Bool) (cfg : Config) (r : RunResult) (h : main dR cfg = .ok r) :
    ∀ u ∈ allSeen r, cfg.updated < u := by
  intro u hu
  obtain ⟨out, hout, huo⟩ := allSeen_mem hu
  obtain ⟨f, _, m, hp⟩ := forall₂_mem_right (main_ok_spec dR cfg r h).1 out hout
  have hspec := processEntries_ok dR f.template (cfg.maxChars.getD 500) cfg.visibility
    (get_feed f.entries (some cfg.updated)) f.pubOk m out hp
  have hmem : u ∈ (get_feed f.entries (some cfg.updated)).map Entry.updated := by
    rw [hspec.1] at huo
    exact List.mem_of_mem_take huo
  obtain ⟨a, ha, rfl⟩ := List.mem_map.mp hmem
  exact get_feed_updated_gt ha

theorem entryLookup_isSome (e : Entry) (name : Str) :
    (entryLookup e name).isSome = true ↔ name ∈ knownFieldNames := by
  unfold entryLookup knownFieldNames
  split_ifs with h1 h2 h3 h4 h5 h6 h7 <;> simp_all

/-! ## Concrete fixtures used by witnesses and counterexamples -/

/-- A template reading `{title}`. -/
def wTitleTpl : Str := "\x7btitle\x7d".toList

/-- Feed whose first publish attempt fails; a later entry (updated 15) exists. -/
def wfeedA : FeedCfg :=
  ⟨wTitleTpl, [⟨none, [], ['A'], none, [], [], 10⟩, ⟨none, [], ['B'], none, [], [], 15⟩], [false]⟩

/-- Feed with one entry (updated 20) whose publish succeeds. -/
def wfeedB : FeedCfg := ⟨wTitleTpl, [⟨none, [], ['C'], none, [], [], 20⟩], [true]⟩

/-- Two-feed configuration: feed A fails on its first entry, feed B succeeds. -/
def wcfg : Config := ⟨0, none, some "unlisted".toList, [wfeedA, wfeedB]⟩

/-- The trace of `main false wcfg`. -/
def wresLive : RunResult :=
  ⟨some 20, 1,
    [⟨10, [10], [⟨['A'], some "unlisted".toList⟩], [false], true⟩,
     ⟨20, [20], [⟨['C'], some "unlisted".toList⟩], [true], false⟩]⟩

/-- The trace of `main true wcfg`. -/
def wresDry : RunResult :=
  ⟨none, 0,
    [⟨15, [10, 15], [⟨['A'], some "unlisted".toList⟩, ⟨['B'], some "unlisted".toList⟩], [], false⟩,
     ⟨20, [20], [⟨['C'], some "unlisted".toList⟩], [], false⟩]⟩

/-- A feed whose template `{foo}` references an unknown field. -/
def badTplFeed : FeedCfg := ⟨"\x7bfoo\x7d".toList, [⟨none, [], [], none, [], [], 5⟩], []⟩

/-- Configuration whose first feed has the bad template and whose second is fine. -/
def badTplCfg : Config := ⟨0, none, none, [badTplFeed, wfeedB]⟩

/-- Two raw entries inside the same second (key 0), listed newest first. -/
def subSecE1 : RawEntry := ⟨none, [], [], none, [], [], 500001⟩

/-- The older sub-second entry. -/
def subSecE2 : RawEntry := ⟨none, [], [], none, [], [], 200000⟩

/-- A sample normalized entry. -/
def wentry : Entry := ⟨[], [], ['A'], [], [], [], 10⟩

/-- A sample aware datetime: 2023-07-05 13:59:59.123456 at +09:00. -/
def wdt : DT := ⟨2023, 7, 5, 13, 59, 59, 123456, 540⟩

/-! ## The claims -/

/-- C1: for every completed live run, the persisted watermark equals the
running maximum of the start watermark and the `updated` instants of all
entries processed in the run (publish success or not): it is never below the
start watermark, it bounds every processed entry, and when any entry was
processed it is one of their `updated` values (their maximum); it is persisted
after all feeds are processed regardless of publish failures. -/
theorem c1_watermark_persisted (cfg : Config) (r : RunResult)
    (h : main false cfg = .ok r) :
    r.saved = some (List.foldl Nat.max cfg.updated (allSeen r)) ∧
    cfg.updated ≤ List.foldl Nat.max cfg.updated (allSeen r) ∧
    (∀ u ∈ allSeen r, u ≤ List.foldl Nat.max cfg.updated (allSeen r)) ∧
    (allSeen r ≠ [] → List.foldl Nat.max cfg.updated (allSeen r) ∈ allSeen r) := by
  obtain ⟨_, hsave, _⟩ := main_ok_spec false cfg r h
  have hgt := main_ok_seen_gt false cfg r h
  refine ⟨by simpa using hsave, le_foldl_max _ _, fun u hu => mem_le_foldl_max _ _ hu,
    fun hne => foldl_max_mem_of_gt hne hgt⟩

/-- C1 witness: the two-feed scenario, where feed A's publish fails at its
first entry. -/
theorem c1_witness :
    wresLive.saved = some (List.foldl Nat.max wcfg.updated (allSeen wresLive)) ∧
    wcfg.updated ≤ List.foldl Nat.max wcfg.updated (allSeen wresLive) ∧
    (∀ u ∈ allSeen wresLive, u ≤ List.foldl Nat.max wcfg.updated (allSeen wresLive)) ∧
    (allSeen wresLive ≠ [] → List.foldl Nat.max wcfg.updated (allSeen wresLive) ∈ allSeen wresLive) :=
  c1_watermark_persisted wcfg wresLive (by rfl)

/-- C2: fetching with watermark `W` returns exactly the images under
`get_entry` of the raw entries with `updated > W` (equality excluded), and a
`None` watermark keeps every entry. -/
theorem c2_fetch_filter (a : Entry) (entries : List RawEntry) (w : Nat) :
    (a ∈ get_feed entries (some w) ↔ ∃ e, e ∈ entries ∧ w < e.updated ∧ a = get_entry e) ∧
    (a ∈ get_feed entries none ↔ ∃ e, e ∈ entries ∧ a = get_entry e) ∧
    (get_feed entries none).Perm (entries.map get_entry) :=
  ⟨mem_get_feed_some, mem_get_feed_none, get_feed_none_perm entries⟩

/-- C3 counterexample: two entries of the same whole second — the newer one
(0.500001 s) listed before the older one (0.200000 s).  The stable sort keys
on `updated_parsed` (whole seconds), so the fetch yields them in feed order
and the output is not in ascending `updated` order, contradicting the claim. -/
theorem c3_counterexample :
    ¬ (get_feed [subSecE1, subSecE2] none).Pairwise (fun a b => a.updated ≤ b.updated) := by
  decide

/-- C3 (amended): within one fetch, entries are yielded in ascending order of
their timestamps truncated to whole seconds — the sort key is feedparser's
second-granularity `updated_parsed`, and the sort is stable — so entries whose
`updated` instants differ only below one second may appear out of sub-second
order. -/
theorem c3_sorted_by_seconds (entries : List RawEntry) (lu : Option Nat) :
    (get_feed entries lu).Pairwise (fun a b => entryKey a ≤ entryKey b) :=
  get_feed_sorted_key entries lu

/-- C4: in a completed live run, every configured feed is processed; the exit
code is 1 exactly when some feed failed, else 0; a failed feed's publish
attempts are successes followed by one final failure, after which no further
entry of that feed is examined (the examined entries form a prefix of the
fetched sequence, one composition per examined entry); a feed that did not
fail published all of its fetched entries. -/
theorem c4_publish_failure (cfg : Config) (r : RunResult) (h : main false cfg = .ok r) :
    r.feedOuts.length = cfg.feeds.length ∧
    r.exitCode = (if r.feedOuts.any FeedOut.failed then 1 else 0) ∧
    (∀ out ∈ r.feedOuts, out.failed = true →
      ∃ pre, out.pubResults = pre ++ [false] ∧ false ∉ pre) ∧
    (∀ out ∈ r.feedOuts, out.failed = false → false ∉ out.pubResults) ∧
    List.Forall₂ (fun f out =>
      out.seen = ((get_feed f.entries (some cfg.updated)).map Entry.updated).take out.seen.length ∧
      out.composed.length = out.seen.length ∧
      (out.failed = false → out.seen.length = (get_feed f.entries (some cfg.updated)).length))
      cfg.feeds r.feedOuts := by
  obtain ⟨hall, _, hexit⟩ := main_ok_spec false cfg r h
  refine ⟨hall.length_eq.symm, hexit, ?_, ?_, ?_⟩
  · intro out hout hf
    obtain ⟨f, _, m, hp⟩ := forall₂_mem_right hall out hout
    exact ((processEntries_ok false f.template (cfg.maxChars.getD 500) cfg.visibility
      (get_feed f.entries (some cfg.updated)) f.pubOk m out hp).2.2.2.2.2.2 rfl).2.2 hf
  · intro out hout hnf
    obtain ⟨f, _, m, hp⟩ := forall₂_mem_right hall out hout
    exact (((processEntries_ok false f.template (cfg.maxChars.getD 500) cfg.visibility
      (get_feed f.entries (some cfg.updated)) f.pubOk m out hp).2.2.2.2.2.2 rfl).2.1 hnf).2
  · refine List.Forall₂.imp ?_ hall
    rintro f out ⟨m, hp⟩
    have hs := processEntries_ok false f.template (cfg.maxChars.getD 500) cfg.visibility
      (get_feed f.entries (some cfg.updated)) f.pubOk m out hp
    exact ⟨hs.1, hs.2.2.2.1, fun hnf => ((hs.2.2.2.2.2.2 rfl).2.1 hnf).1⟩

/-- C4 witness: the two-feed scenario. -/
theorem c4_witness :
    wresLive.feedOuts.length = wcfg.feeds.length ∧
    wresLive.exitCode = (if wresLive.feedOuts.any FeedOut.failed then 1 else 0) ∧
    (∀ out ∈ wresLive.feedOuts, out.failed = true →
      ∃ pre, out.pubResults = pre ++ [false] ∧ false ∉ pre) ∧
    (∀ out ∈ wresLive.feedOuts, out.failed = false → false ∉ out.pubResults) ∧
    List.Forall₂ (fun f out =>
      out.seen = ((get_feed f.entries (some wcfg.updated)).map Entry.updated).take out.seen.length ∧
      out.composed.length = out.seen.length ∧
      (out.failed = false → out.seen.length = (get_feed f.entries (some wcfg.updated)).length))
      wcfg.feeds wresLive.feedOuts :=
  c4_publish_failure wcfg wresLive (by rfl)

/-- C5: in a completed dry run no publish call is made for any feed or entry,
nothing is persisted (the config file is untouched), and the composition work
is still done for every fetched entry of every feed. -/
theorem c5_dry_run_frame (cfg : Config) (r : RunResult) (h : main true cfg = .ok r) :
    r.saved = none ∧
    (∀ out ∈ r.feedOuts, out.pubResults = []) ∧
    List.Forall₂ (fun f out => out.composed.length = (get_feed f.entries (some cfg.updated)).length)
      cfg.feeds r.feedOuts := by
  obtain ⟨hall, hsave, _⟩ := main_ok_spec true cfg r h
  refine ⟨by simpa using hsave, ?_, ?_⟩
  · intro out hout
    obtain ⟨f, _, m, hp⟩ := forall₂_mem_right hall out hout
    exact ((processEntries_ok true f.template (cfg.maxChars.getD 500) cfg.visibility
      (get_feed f.entries (some cfg.updated)) f.pubOk m out hp).2.2.2.2.2.1 rfl).1
  · refine List.Forall₂.imp ?_ hall
    rintro f out ⟨m, hp⟩
    have hs := processEntries_ok true f.template (cfg.maxChars.getD 500) cfg.visibility
      (get_feed f.entries (some cfg.updated)) f.pubOk m out hp
    rw [hs.2.2.2.1, (hs.2.2.2.2.2.1 rfl).2.2]

/-- C5 witness: the two-feed scenario run dry. -/
theorem c5_witness :
    wresDry.saved = none ∧
    (∀ out ∈ wresDry.feedOuts, out.pubResults = []) ∧
    List.Forall₂ (fun f out => out.composed.length = (get_feed f.entries (some wcfg.updated)).length)
      wcfg.feeds wresDry.feedOuts :=
  c5_dry_run_frame wcfg wresDry (by rfl)

/-- C6: the composed status text never exceeds the character limit — the
formatted template is truncated by a hard character cut — and in every
completed run each composed status is bounded by `config.get('max_chars',
500)`, the limit defaulting to 500 when the configuration does not set it. -/
theorem c6_compose_bounded :
    (∀ (e : Entry) (t : Str) (mc : Nat) (s : Str),
      pyFormat (entryLookup e) t = .ok s → (s.take mc).length ≤ mc) ∧
    (∀ (dR : Bool) (cfg : Config) (r : RunResult), main dR cfg = .ok r →
      ∀ out ∈ r.feedOuts, ∀ st ∈ out.composed, st.text.length ≤ cfg.maxChars.getD 500) := by
  constructor
  · intro e t mc s _
    exact List.length_take_le mc s
  · intro dR cfg r h out hout st hst
    obtain ⟨hall, _, _⟩ := main_ok_spec dR cfg r h
    obtain ⟨f, _, m, hp⟩ := forall₂_mem_right hall out hout
    exact (processEntries_ok dR f.template (cfg.maxChars.getD 500) cfg.visibility
      (get_feed f.entries (some cfg.updated)) f.pubOk m out hp).2.2.2.2.1 st hst

/-- C6 witness: a concrete composition and the live two-feed run. -/
theorem c6_witness :
    ((['A'] : Str).take 500).length ≤ 500 ∧
    (∀ out ∈ wresLive.feedOuts, ∀ st ∈ out.composed,
      st.text.length ≤ wcfg.maxChars.getD 500) :=
  ⟨c6_compose_bounded.1 wentry wTitleTpl 500 ['A'] (by rfl),
   c6_compose_bounded.2 false wcfg wresLive (by rfl)⟩

/-- C7 counterexample: composing the template `"}"` (which references no field
at all) fails — with a `ValueError`, not a `KeyError` — refuting "composing
with a template containing only known placeholders never fails"; and a
template error in the first feed aborts the entire process: the second feed is
never reached, no watermark is persisted, and the process exits 1, refuting
"a TemplateError aborts only that entry/feed's processing". -/
theorem c7_counterexample :
    pyFormat (entryLookup wentry) ['\x7d'] = .error .singleBrace ∧
    main false badTplCfg = .error (.unknownField "foo".toList) ∧
    savedWatermark (main false badTplCfg) = none ∧
    processExitCode (main false badTplCfg) = 1 :=
  ⟨rfl, rfl, rfl, rfl⟩

/-- C7 (amended): for a template whose brace syntax is well formed, composing
fails exactly when it references a field name outside the known set
(`url`, `link`, `title`, `summary`, `content`, `hashtags`, `updated`), and
such a failure is a `KeyError` (`TemplateError`) naming such a field; a
template with malformed brace syntax always fails to compose (possibly with a
`ValueError`); and an uncaught format error aborts the entire run — nothing is
persisted and the process exits 1 — not merely that entry or feed. -/
theorem c7_template_errors :
    (∀ (e : Entry) (t : Str) (fs : List Str), templateFields t = some fs →
      (((∃ s, pyFormat (entryLookup e) t = .ok s) ↔ ∀ f ∈ fs, f ∈ knownFieldNames) ∧
       (∀ err, pyFormat (entryLookup e) t = .error err →
         ∃ nm, err = .unknownField nm ∧ nm ∈ fs ∧ nm ∉ knownFieldNames))) ∧
    (∀ (e : Entry) (t : Str), templateFields t = none →
      ∃ err, pyFormat (entryLookup e) t = .error err) ∧
    (∀ (dR : Bool) (cfg : Config) (err : FormatError), main dR cfg = .error err →
      savedWatermark (main dR cfg) = none ∧ processExitCode (main dR cfg) = 1) := by
  refine ⟨?_, ?_, ?_⟩
  · intro e t fs hfs
    obtain ⟨hsome, _⟩ := fmtAgrees (entryLookup e) t.length t (Nat.le_refl _) .lit
    obtain ⟨ha, hb, hc⟩ := hsome fs hfs
    constructor
    · constructor
      · rintro ⟨s, hs⟩ f hf
        exact (entryLookup_isSome e f).mp (hb s hs f hf)
      · intro hknown
        exact ha fun f hf => (entryLookup_isSome e f).mpr (hknown f hf)
    · intro err herr
      obtain ⟨nm, hnm, hmem, hnone⟩ := hc err herr
      refine ⟨nm, hnm, hmem, ?_⟩
      intro hk
      have hsome2 := (entryLookup_isSome e nm).mpr hk
      rw [hnone] at hsome2
      exact absurd hsome2 (by simp)
  · intro e t ht
    exact (fmtAgrees (entryLookup e) t.length t (Nat.le_refl _) .lit).2 ht
  · intro dR cfg err h
    constructor
    · rw [h]
      rfl
    · rw [h]
      rfl

/-- C7 witness: a well-formed all-known template composes; a lone opening
brace fails; the aborted run of the bad-template configuration. -/
theorem c7_witness :
    (((∃ s, pyFormat (entryLookup wentry) wTitleTpl = .ok s) ↔
        ∀ f ∈ ["title".toList], f ∈ knownFieldNames) ∧
     (∀ err, pyFormat (entryLookup wentry) wTitleTpl = .error err →
       ∃ nm, err = .unknownField nm ∧ nm ∈ ["title".toList] ∧ nm ∉ knownFieldNames)) ∧
    (∃ err, pyFormat (entryLookup wentry) ['\x7b'] = .error err) ∧
    (savedWatermark (main false badTplCfg) = none ∧ processExitCode (main false badTplCfg) = 1) :=
  ⟨c7_template_errors.1 wentry wTitleTpl ["title".toList] (by rfl),
   c7_template_errors.2.1 wentry ['\x7b'] (by rfl),
   c7_template_errors.2.2 false badTplCfg (.unknownField "foo".toList) (by rfl)⟩

/-- C8: serializing a timezone-aware watermark with `isoformat` and parsing it
back recovers it exactly — no precision loss, fraction and offset included. -/
theorem c8_watermark_roundtrip (d : DT) (h : isValidDT d) :
    dateutil_parse (isoformat d) = some d :=
  dateutil_parse_isoformat d h

/-- C8 witness: a concrete microsecond-precision datetime at offset +09:00. -/
theorem c8_witness : dateutil_parse (isoformat wdt) = some wdt :=
  c8_watermark_roundtrip wdt (by decide)

/-- C9 counterexample: a dry run over a configuration whose template
references an unknown field crashes with an uncaught exception, so the
process exit status is 1, not 0 — the claim "in dry-run mode the process exit
code is always 0 for every configuration and feed content" fails. -/
theorem c9_counterexample : processExitCode (main true badTplCfg) ≠ 0 := by
  decide

/-- C9 (amended): in every dry run that completes without an uncaught
exception the error flag is never set — no feed can fail since publishing is
skipped before any remote call — and the process exits 0; the `sys.exit(1)`
branch is unreachable in dry-run mode. -/
theorem c9_dry_run_exit (cfg : Config) (r : RunResult) (h : main true cfg = .ok r) :
    r.exitCode = 0 ∧ ∀ out ∈ r.feedOuts, out.failed = false := by
  obtain ⟨hall, _, hexit⟩ := main_ok_spec true cfg r h
  have hfail : ∀ out ∈ r.feedOuts, out.failed = false := by
    intro out hout
    obtain ⟨f, _, m, hp⟩ := forall₂_mem_right hall out hout
    exact ((processEntries_ok true f.template (cfg.maxChars.getD 500) cfg.visibility
      (get_feed f.entries (some cfg.updated)) f.pubOk m out hp).2.2.2.2.2.1 rfl).2.1
  refine ⟨?_, hfail⟩
  rw [hexit]
  have hany : r.feedOuts.any FeedOut.failed = false := by
    rw [List.any_eq_false]
    intro out hout
    simp [hfail out hout]
  rw [hany]
  rfl

/-- C9 witness: the dry two-feed run. -/
theorem c9_witness :
    wresDry.exitCode = 0 ∧ ∀ out ∈ wresDry.feedOuts, out.failed = false :=
  c9_dry_run_exit wcfg wresDry (by rfl)

/-- C10 counterexample: in the two-feed scenario, feed A fails at its first
entry (updated 10); its later entry (updated 15) is indeed never examined —
but the persisted watermark is 20 (advanced by feed B), so on the next run the
fetch of feed A with watermark 20 returns nothing: the unexamined entry is NOT
strictly newer than the persisted watermark and is NOT fetched again,
refuting the claim's final clause. -/
theorem c10_counterexample :
    main false wcfg = .ok wresLive ∧
    wresLive.feedOuts.map FeedOut.seen = [[10], [20]] ∧
    wresLive.saved = some 20 ∧
    get_feed wfeedA.entries (some 20) = [] :=
  ⟨rfl, rfl, rfl, rfl⟩

/-- C10 (amended): when a feed's publish fails at some entry, the entries of
that feed after the failed one are never examined in that run (the examined
entries form a prefix of the fetched sequence) and do not contribute to the
persisted watermark, which is the running maximum of the start watermark and
the examined entries only; every examined entry — the failed one included —
is at most the persisted watermark and is therefore excluded from any next
fetch with that watermark, while a later entry is fetched again only if its
`updated` is strictly greater than the persisted global watermark, which may
exceed the failed entry's timestamp when other feeds advanced it. -/
theorem c10_failed_entry_retry (cfg : Config) (r : RunResult) (h : main false cfg = .ok r)
    (W : Nat) (hs : r.saved = some W) :
    W = List.foldl Nat.max cfg.updated (allSeen r) ∧
    List.Forall₂ (fun f out => out.seen =
      ((get_feed f.entries (some cfg.updated)).map Entry.updated).take out.seen.length)
      cfg.feeds r.feedOuts ∧
    (∀ u ∈ allSeen r, u ≤ W) ∧
    (∀ u ∈ allSeen r, ∀ (es : List RawEntry), ∀ a ∈ get_feed es (some W), u < a.updated) := by
  obtain ⟨hall, hsave, _⟩ := main_ok_spec false cfg r h
  simp only [Bool.false_eq_true, if_false] at hsave
  rw [hsave, Option.some.injEq] at hs
  have hW : W = List.foldl Nat.max cfg.updated (allSeen r) := hs.symm
  refine ⟨hW, ?_, ?_, ?_⟩
  · refine List.Forall₂.imp ?_ hall
    rintro f out ⟨m, hp⟩
    exact (processEntries_ok false f.template (cfg.maxChars.getD 500) cfg.visibility
      (get_feed f.entries (some cfg.updated)) f.pubOk m out hp).1
  · intro u hu
    rw [hW]
    exact mem_le_foldl_max _ _ hu
  · intro u hu es a ha
    have h1 : u ≤ W := by
      rw [hW]
      exact mem_le_foldl_max _ _ hu
    have h2 : W < a.updated := get_feed_updated_gt ha
    omega

/-- C10 witness: the two-feed scenario with persisted watermark 20. -/
theorem c10_witness :
    (20 : Nat) = List.foldl Nat.max wcfg.updated (allSeen wresLive) ∧
    List.Forall₂ (fun f out => out.seen =
      ((get_feed f.entries (some wcfg.updated)).map Entry.updated).take out.seen.length)
      wcfg.feeds wresLive.feedOuts ∧
    (∀ u ∈ allSeen wresLive, u ≤ 20) ∧
    (∀ u ∈ allSeen wresLive, ∀ (es : List RawEntry), ∀ a ∈ get_feed es (some 20), u < a.updated) :=
  c10_failed_entry_retry wcfg wresLive (by rfl) 20 (by rfl)

end Feediverse
